import Mathlib

/-!
Verification development for the smart-agent repository's Model Session &
Streaming subsystem.

The definitions below are a shallow embedding of the C++ sources:

* `ModelErrorType`                 — src/llm-interface/ModelConstants.h
* `ModelInterface`, `.load`, `.unload`, `.generateResponse`
                                   — src/llm-interface/ModelInterface.cpp
* `ModelManager`, `.fetchModels`, `.loadModel`, `.unloadModel`
                                   — src/llm-interface/ModelManager.cpp
* `Application.sendPrompt`, `Application.streamLLMResponse`
                                   — src/Application.cpp

External effects (file system, the llama.cpp engine, the JSON library and
the curl pipe) are modelled by explicit environment records carrying the
outcomes the C++ code observes; ghost fields (`live`, `nextRes`, `nextObj`,
`initCount`, event lists, read/close counters) instrument resource
allocation, object identity, engine initialisations and I/O calls that the
C++ program performs implicitly.
-/

/-- Error enumeration from src/llm-interface/ModelConstants.h. -/
inductive ModelErrorType where
  | ModelPathError
  | ModelLoadError
  | SendPromptError
  | ModelResponseError
  | MODEL_LOAD_ERROR
  | MODEL_DIRECTORY_NOT_SET
  | MODEL_DIRECTORY_DOES_NOT_EXIST
  | MODEL_PATH_ERROR
  | MODEL_NOT_FOUND
deriving Repr, DecidableEq

/-- `std::filesystem::path::extension()` of a plain filename: the suffix of
the filename starting at its rightmost period, except that `.`, `..` and
dotfiles (whose only period is the leading character) have no extension. -/
def fileExtension (fname : String) : String :=
  if fname = "." || fname = ".." then ""
  else
    let rev := fname.toList.reverse
    let afterDot := rev.takeWhile (fun c => c ≠ '.')
    match rev.drop afterDot.length with
    | [] => ""
    | _ :: [] => ""
    | _ :: _ :: _ => String.mk ('.' :: afterDot.reverse)

/-- Pads a remainder below 100 to two digits. -/
def pad2 (n : Nat) : String :=
  if n < 10 then "0" ++ toString n else toString n

/-- ModelManager.cpp lines 44-49: `fileSize / (1024*1024*1024)` printed with
`snprintf("%.2f")`.  Division of a file size by `2^30` is exact in binary
floating point, so the printed string is the exact rational
`bytes / 2^30` rounded to two decimal places with ties to even. -/
def formatSizeGB (bytes : Nat) : String :=
  let num := bytes * 100
  let d : Nat := 1024 * 1024 * 1024
  let q := num / d
  let r := num % d
  let rounded :=
    if 2 * r < d then q
    else if d < 2 * r then q + 1
    else if q % 2 = 0 then q else q + 1
  toString (rounded / 100) ++ "." ++ pad2 (rounded % 100)

/-- `std::string` `operator<`: lexicographic comparison of the character
sequences (byte order; identical to code-point order for ASCII names). -/
def strLt : List Char → List Char → Bool
  | [], [] => false
  | [], _ :: _ => true
  | _ :: _, [] => false
  | a :: as, b :: bs =>
    if a.toNat < b.toNat then true
    else if b.toNat < a.toNat then false
    else strLt as bs

/-- One insertion step of the sort in ModelManager.cpp line 62-63, whose
comparator is `a.second < b.second` (the size label, not the name). -/
def insertBySecond (a : String × String) : List (String × String) → List (String × String)
  | [] => [a]
  | b :: t => if strLt a.2.toList b.2.toList then a :: b :: t else b :: insertBySecond a t

/-- `std::sort(modelList, [](a, b){ return a.second < b.second; })`. -/
def sortBySizeLabel (l : List (String × String)) : List (String × String) :=
  l.foldr insertBySecond []

/-- One entry observed by `std::filesystem::directory_iterator`. -/
structure FsEntry where
  filename : String
  isRegularFile : Bool
  size : Nat
deriving Repr, DecidableEq

/-- File-system outcomes observed by `ModelManager::fetchModels`. -/
structure FsEnv where
  dirExists : Bool
  entries : List FsEntry
  scanOk : Bool

/-- The state of one `ModelInterface` object (ModelInterface.h).  `model` and
`context` are the llama.cpp handles (`none` = null pointer); `objId`
identifies the C++ object (pointer identity). -/
structure ModelInterface where
  modelPath : String
  model : Option Nat
  context : Option Nat
  isLoaded : Bool
  objId : Nat
deriving Repr, DecidableEq

/-- Engine outcomes observed by one `ModelManager::loadModel` call. -/
structure LoadEnv where
  fileExists : String → Bool
  loadOk : Bool
  ctxOk : Bool

/-- Result of `ModelInterface::load`: the flag it returns, the updated object,
the engine resources it allocated and the next fresh resource id. -/
structure EngineLoadResult where
  ok : Bool
  iface : ModelInterface
  allocated : List Nat
  nextRes : Nat
deriving Repr, DecidableEq

/-- ModelInterface.cpp lines 55-83.  `llama_model_load_from_file` either
fails (null stored in `m_model`) or yields a fresh model resource; then
`llama_init_from_model` either fails (the function returns `false` with the
model resource still held) or yields a fresh context and `m_isLoaded` is
set. -/
def ModelInterface.load (env : LoadEnv) (mi : ModelInterface) (nextRes : Nat) :
    EngineLoadResult :=
  if env.loadOk then
    let mi1 := { mi with model := some nextRes }
    if env.ctxOk then
      ⟨true, { mi1 with context := some (nextRes + 1), isLoaded := true },
        [nextRes, nextRes + 1], nextRes + 2⟩
    else ⟨false, mi1, [nextRes], nextRes + 1⟩
  else ⟨false, { mi with model := none }, [], nextRes⟩

/-- ModelInterface.cpp lines 92-104: frees the engine resources when loaded
(the pointer fields keep their stale values) and clears `m_isLoaded`.
Returns the updated object and the freed resource ids. -/
def ModelInterface.unload (mi : ModelInterface) : ModelInterface × List Nat :=
  if mi.isLoaded then
    ({ mi with isLoaded := false }, mi.model.toList ++ mi.context.toList)
  else ({ mi with isLoaded := false }, [])

/-- `ModelManager` state (ModelManager.h): the name-keyed interface map, the
currently loaded interface (`m_loadedModel`, identified by its map key) and
the models directory, plus ghost instrumentation: `live` engine resources,
fresh counters and the number of `ModelInterface::load` invocations. -/
structure ModelManager where
  modelMap : List (String × ModelInterface)
  loadedModel : Option String
  modelsDir : String
  live : List Nat
  nextRes : Nat
  nextObj : Nat
  initCount : Nat
deriving Repr, DecidableEq

/-- `m_modelMap.find(name)` on the association list. -/
def lookupMI (k : String) : List (String × ModelInterface) → Option ModelInterface
  | [] => none
  | e :: t => if e.1 = k then some e.2 else lookupMI k t

/-- In-place mutation of the map entry with key `k` (the C++ code mutates the
object the map points to). -/
def updateMI (k : String) (v : ModelInterface) (m : List (String × ModelInterface)) :
    List (String × ModelInterface) :=
  m.map fun e => if e.1 = k then (k, v) else e

/-- The fresh `ModelManager` produced by the constructor (ModelManager.h
lines 78-82), with the models directory subsequently set to `dir`. -/
def ModelManager.start (dir : String) : ModelManager :=
  { modelMap := [], loadedModel := none, modelsDir := dir,
    live := [], nextRes := 0, nextObj := 0, initCount := 0 }

/-- ModelManager.cpp lines 18-66: `fetchModels`. -/
def ModelManager.fetchModels (s : ModelManager) (env : FsEnv) :
    Except ModelErrorType (List (String × String)) × ModelManager :=
  if s.modelsDir = "" then (.error .MODEL_DIRECTORY_NOT_SET, s)
  else if env.dirExists = false then (.error .MODEL_DIRECTORY_DOES_NOT_EXIST, s)
  else if env.scanOk = false then (.error .MODEL_PATH_ERROR, s)
  else
    let modelList :=
      (env.entries.filter fun e =>
        e.isRegularFile && (fileExtension e.filename == ".gguf")).map
        fun e => (e.filename, formatSizeGB e.size)
    (.ok (sortBySizeLabel modelList), s)

/-- ModelManager.cpp lines 152-160: `unloadModel`. -/
def ModelManager.unloadModel (s : ModelManager) : ModelManager :=
  match s.loadedModel with
  | none => s
  | some n =>
    match lookupMI n s.modelMap with
    | none => { s with loadedModel := none }
    | some mi =>
      let r := mi.unload
      { s with modelMap := updateMI n r.1 s.modelMap,
               live := s.live.filter (fun x => !(r.2.contains x)),
               loadedModel := none }

/-- ModelManager.cpp lines 85-142: the body of `loadModel` after the initial
unload of any currently loaded model.  Returns the `std::expected` value
(a successful result is the returned interface pointer, identified by its
map key and object id) and the new state. -/
def ModelManager.loadModelCore (s : ModelManager) (env : LoadEnv) (name : String) :
    Except ModelErrorType (String × Nat) × ModelManager :=
  if s.modelsDir = "" then (.error .MODEL_DIRECTORY_NOT_SET, s)
  else
    let modelPath := s.modelsDir ++ "/" ++ name
    if env.fileExists modelPath = false then (.error .MODEL_NOT_FOUND, s)
    else
      match lookupMI name s.modelMap with
      | some mi =>
        if mi.isLoaded then (.ok (name, mi.objId), { s with loadedModel := some name })
        else
          let r := ModelInterface.load env mi s.nextRes
          let s1 := { s with modelMap := updateMI name r.iface s.modelMap,
                             live := s.live ++ r.allocated, nextRes := r.nextRes,
                             initCount := s.initCount + 1 }
          if r.ok then (.ok (name, r.iface.objId), { s1 with loadedModel := some name })
          else (.error .MODEL_LOAD_ERROR, s1)
      | none =>
        let mi0 : ModelInterface :=
          { modelPath := modelPath, model := none, context := none,
            isLoaded := false, objId := s.nextObj }
        let r := ModelInterface.load env mi0 s.nextRes
        if r.ok then
          (.ok (name, r.iface.objId),
           { s with modelMap := (name, r.iface) :: s.modelMap,
                    loadedModel := some name,
                    live := s.live ++ r.allocated, nextRes := r.nextRes,
                    nextObj := s.nextObj + 1, initCount := s.initCount + 1 })
        else
          -- `delete modelInterface`: the object disappears, but the empty
          -- destructor frees no engine resource, so `live` keeps `r.allocated`.
          (.error .MODEL_LOAD_ERROR,
           { s with live := s.live ++ r.allocated, nextRes := r.nextRes,
                    nextObj := s.nextObj + 1, initCount := s.initCount + 1 })

/-- ModelManager.cpp lines 77-143: `loadModel`.  Lines 80-83 first unload the
currently loaded model, unconditionally. -/
def ModelManager.loadModel (s : ModelManager) (env : LoadEnv) (name : String) :
    Except ModelErrorType (String × Nat) × ModelManager :=
  let s1 := if s.loadedModel.isSome then s.unloadModel else s
  s1.loadModelCore env name

/-- One external call on the manager, with the engine/file-system outcomes
that call observes. -/
inductive MgrOp where
  | load (name : String) (env : LoadEnv)
  | unload

/-- Applies one call. -/
def ModelManager.step (s : ModelManager) : MgrOp → ModelManager
  | .load name env => (s.loadModel env name).2
  | .unload => s.unloadModel

/-- Applies a sequence of `loadModel` / `unloadModel` calls. -/
def ModelManager.runOps (s : ModelManager) : List MgrOp → ModelManager
  | [] => s
  | op :: t => (s.step op).runOps t

/-- Number of interfaces in the map whose `isLoaded()` is true. -/
def ModelManager.loadedCount (s : ModelManager) : Nat :=
  (s.modelMap.filter fun e => e.2.isLoaded).length

/-- Engine outcomes observed by `ModelInterface::generateResponse`:
whether tokenization succeeds, the prompt token count, the key-value cache
occupancy and context size, and the per-iteration outcomes of
`llama_decode`, `llama_vocab_is_eog` and `llama_token_to_piece`. -/
structure GenEnv where
  tokenizeOk : Bool
  nPromptTokens : Nat
  kvUsed : Nat
  nCtx : Nat
  decodeOk : Nat → Bool
  isEog : Nat → Bool
  pieceRes : Nat → Int

/-- Bytes written to the pipe and number of `close(writeFd)` calls. -/
structure GenResult where
  written : Nat
  closes : Nat
deriving Repr, DecidableEq

/-- The `while(true)` loop of ModelInterface.cpp lines 172-225.  `fuel` bounds
the recursion; every loop iteration grows the cache occupancy by the batch
size, so for a non-empty batch `nCtx + 2` iterations always suffice and the
fuel case is never the value actually returned for the inputs used here. -/
def generateLoop (env : GenEnv) : Nat → Nat → Nat → Nat → Nat → Nat
  | 0, _, _, _, written => written
  | fuel + 1, i, used, batchTokens, written =>
    if env.nCtx < used + batchTokens then written
    else if env.decodeOk i = false then written
    else if env.isEog i then written
    else
      match env.pieceRes i with
      | .negSucc _ => written
      | .ofNat n => generateLoop env fuel (i + 1) (used + batchTokens) 1 (written + n)

/-- ModelInterface.cpp lines 153-228: `generateResponse`.  On tokenization
failure the function returns at line 166 without reaching the
`close(writeFd)` at line 227; every loop exit falls through to that close. -/
def ModelInterface.generateResponse (env : GenEnv) : GenResult :=
  if env.tokenizeOk = false then { written := 0, closes := 0 }
  else
    { written := generateLoop env (env.nCtx + 2) 0 env.kvUsed env.nPromptTokens 0,
      closes := 1 }

/-- Outcomes observed by the streaming loop of `Application::streamLLMResponse`:
`parseLine s = none` models `json::parse` throwing on line `s` (the catch
ignores the line); `some (chunk?, done)` gives the optional string field
`"response"` and the boolean field `"done"`.  `stop i` is the value of the
atomic `stopRequested` observed before the `i`-th `fgetc` call. -/
structure StreamEnv where
  parseLine : String → Option (Option String × Bool)
  stop : Nat → Bool

/-- Loop-local state of the read loop (Application.cpp lines 326-377) plus
the conversation history it appends to and a ghost count of `fgetc` calls. -/
structure StreamSt where
  currentLine : String
  accumulated : String
  chunkCounter : Nat
  history : String
  reads : Nat
  done : Bool
deriving Repr, DecidableEq

/-- Processing of one complete line (Application.cpp lines 335-368): a parsed
`"response"` chunk is accumulated and flushed to the history every five
chunks under the response mutex; a parsed `"done": true` flushes the rest
and breaks. -/
def processLine (env : StreamEnv) (st : StreamSt) : StreamSt :=
  match env.parseLine st.currentLine with
  | none => st
  | some (chunkOpt, doneFlag) =>
    let st1 :=
      match chunkOpt with
      | some chunk =>
        let acc := st.accumulated ++ chunk
        let cc := st.chunkCounter + 1
        if 5 ≤ cc then
          { st with history := st.history ++ acc, accumulated := "", chunkCounter := 0 }
        else { st with accumulated := acc, chunkCounter := cc }
      | none => st
    if doneFlag then
      if st1.accumulated = "" then { st1 with done := true }
      else { st1 with history := st1.history ++ st1.accumulated, done := true }
    else st1

/-- Handling of a newline (Application.cpp lines 332-369): an empty
`currentLine` is skipped, otherwise the line is processed. -/
def lineStep (env : StreamEnv) (st1 : StreamSt) : StreamSt :=
  if st1.currentLine = "" then st1 else processLine env st1

/-- Application.cpp line 331: `while (!stopRequested && (c = fgetc(pipe)) != EOF)`.
The stop flag is checked before every `fgetc`; `pipe` is the remaining byte
stream, `[]` meaning the next read returns EOF. -/
def streamLoop (env : StreamEnv) : List Char → StreamSt → StreamSt
  | [], st =>
    if env.stop st.reads then st else { st with reads := st.reads + 1 }
  | c :: rest, st =>
    if env.stop st.reads then st
    else
      let st1 := { st with reads := st.reads + 1 }
      if c = '\n' then
        let st2 := lineStep env st1
        if st2.done then st2
        else streamLoop env rest { st2 with currentLine := "" }
      else streamLoop env rest { st1 with currentLine := st1.currentLine.push c }

/-- Final history, number of `fgetc` calls and number of `pclose` calls. -/
structure StreamResult where
  history : String
  reads : Nat
  closes : Nat
deriving Repr, DecidableEq

/-- Application.cpp lines 305-388, the streaming part of `streamLLMResponse`
for a non-empty prompt once the pipe is open: the `llmName: ` prefix is
appended under the mutex, the read loop runs, a final `"\n\n"` is appended
and `pclose` is called exactly once after the loop. -/
def Application.streamLLMResponse (env : StreamEnv) (llmName : String)
    (pipe : List Char) (history0 : String) : StreamResult :=
  let st := streamLoop env pipe
    { currentLine := "", accumulated := "", chunkCounter := 0,
      history := history0 ++ llmName ++ ": ", reads := 0, done := false }
  { history := st.history ++ "\n\n", reads := st.reads, closes := 1 }

/-- Observable actions of `Application::sendPrompt`: a mutex-guarded append
to `conversationHistory` and the `std::async` launch of the generation
worker. -/
inductive AppEvent where
  | lockAppend (text : String)
  | spawnWorker (llm : String) (prompt : String) (keepAlive : Bool)
deriving Repr, DecidableEq

/-- The members of `Application` that `sendPrompt` touches (Application.h). -/
structure AppState where
  isLLMRunning : Bool
  isWaitingForResponse : Bool
  stopRequested : Bool
  conversationHistory : String
  currentLLM : String
deriving Repr, DecidableEq

/-- Collaborator outcomes of one `sendPrompt` call: the file context returned
by `contextManager->getAllFilesContents()` and whether the `std::async`
launch throws. -/
structure PromptEnv where
  fileContext : String
  asyncLaunchOk : Bool

/-- Application.cpp lines 193-260: `sendPrompt`.  Returns the new state and
the ordered list of observable actions the call performs. -/
def Application.sendPrompt (env : PromptEnv) (prompt : String) (keepAlive : Bool)
    (s : AppState) : AppState × List AppEvent :=
  if s.isLLMRunning = false then (s, [])
  else
    let userMessage := "User: " ++ prompt ++ "\n"
    let s1 :=
      if prompt = "" then s
      else { s with isWaitingForResponse := true,
                    conversationHistory := s.conversationHistory ++ userMessage }
    let evs1 : List AppEvent := if prompt = "" then [] else [.lockAppend userMessage]
    let combinedPrompt :=
      if prompt = "" then prompt
      else if env.fileContext = "" then prompt
      else "I have the following files in my context:\n\n" ++ env.fileContext ++
           "\n\nBased on these files, please answer the following question:\n" ++ prompt
    let s2 := { s1 with stopRequested := false }
    if env.asyncLaunchOk then
      (s2, evs1 ++ [.spawnWorker s2.currentLLM combinedPrompt keepAlive])
    else
      (if prompt = "" then s2 else { s2 with isWaitingForResponse := false }, evs1)

/-! ### Association-list lemmas -/

theorem lookupMI_isSome_of_mem {k : String} {v : ModelInterface}
    {m : List (String × ModelInterface)} (h : (k, v) ∈ m) :
    (lookupMI k m).isSome := by
  induction m with
  | nil => simp at h
  | cons e t ih =>
    rcases List.mem_cons.1 h with h | h
    · subst h; simp [lookupMI]
    · by_cases he : e.1 = k
      · simp [lookupMI, he]
      · simpa [lookupMI, he] using ih h

theorem mem_of_lookupMI_eq_some {k : String} {v : ModelInterface}
    {m : List (String × ModelInterface)} (h : lookupMI k m = some v) :
    (k, v) ∈ m := by
  induction m with
  | nil => simp [lookupMI] at h
  | cons e t ih =>
    by_cases he : e.1 = k
    · rw [lookupMI, if_pos he] at h
      obtain ⟨a, b⟩ := e
      obtain rfl : b = v := by injection h
      obtain rfl : a = k := he
      exact List.mem_cons_self _ _
    · rw [lookupMI, if_neg he] at h
      exact List.mem_cons_of_mem _ (ih h)

theorem not_mem_keys_of_lookupMI_eq_none {k : String}
    {m : List (String × ModelInterface)} (h : lookupMI k m = none) :
    k ∉ m.map Prod.fst := by
  induction m with
  | nil => simp
  | cons e t ih =>
    by_cases he : e.1 = k
    · rw [lookupMI, if_pos he] at h
      cases h
    · rw [lookupMI, if_neg he] at h
      simp only [List.map_cons, List.mem_cons]
      rintro (h1 | h1)
      · exact he h1.symm
      · exact ih h h1

theorem updateMI_keys (k : String) (v : ModelInterface)
    (m : List (String × ModelInterface)) :
    (updateMI k v m).map Prod.fst = m.map Prod.fst := by
  induction m with
  | nil => rfl
  | cons e t ih =>
    simp only [updateMI, List.map_cons] at ih ⊢
    by_cases he : e.1 = k
    · rw [if_pos he, ih]
      simp [he]
    · rw [if_neg he, ih]

theorem mem_updateMI {e : String × ModelInterface} {k : String} {v : ModelInterface}
    {m : List (String × ModelInterface)} (h : e ∈ updateMI k v m) :
    e = (k, v) ∨ (e ∈ m ∧ e.1 ≠ k) := by
  rcases List.mem_map.1 h with ⟨a, ha, hae⟩
  by_cases hk : a.1 = k
  · left
    rw [if_pos hk] at hae
    exact hae.symm
  · right
    rw [if_neg hk] at hae
    subst hae
    exact ⟨ha, hk⟩

theorem lookupMI_updateMI_self {k : String} {v w : ModelInterface}
    {m : List (String × ModelInterface)} (h : lookupMI k m = some w) :
    lookupMI k (updateMI k v m) = some v := by
  induction m with
  | nil => cases h
  | cons e t ih =>
    by_cases he : e.1 = k
    · simp [updateMI, lookupMI, he]
    · rw [lookupMI, if_neg he] at h
      simp only [updateMI, List.map_cons, if_neg he, lookupMI, if_neg he]
      exact ih h

theorem lookupMI_updateMI_of_ne {k k' : String} {v : ModelInterface}
    {m : List (String × ModelInterface)} (h : k' ≠ k) :
    lookupMI k' (updateMI k v m) = lookupMI k' m := by
  induction m with
  | nil => rfl
  | cons e t ih =>
    by_cases he : e.1 = k
    · have h1 : (k : String) ≠ k' := fun hkk => h hkk.symm
      have h2 : e.1 ≠ k' := by rw [he]; exact h1
      simp only [updateMI, List.map_cons, if_pos he, lookupMI, if_neg h1, if_neg h2]
      exact ih
    · simp only [updateMI, List.map_cons, if_neg he, lookupMI]
      by_cases he' : e.1 = k'
      · rw [if_pos he', if_pos he']
      · rw [if_neg he', if_neg he']
        exact ih

/-! ### The single-loaded-session invariant -/

/-- Every interface in the map is in the unloaded state. -/
def AllUnloaded (s : ModelManager) : Prop :=
  ∀ e ∈ s.modelMap, e.2.isLoaded = false

/-- Manager invariant: map keys are distinct (one interface per name), and any
loaded interface is the one `m_loadedModel` points to. -/
structure MgrInv (s : ModelManager) : Prop where
  nodupKeys : (s.modelMap.map Prod.fst).Nodup
  loadedUnique : ∀ e ∈ s.modelMap, e.2.isLoaded = true → s.loadedModel = some e.1

theorem allUnloaded_of_loadedModel_none {s : ModelManager} (hinv : MgrInv s)
    (h : s.loadedModel = none) : AllUnloaded s := by
  intro e he
  cases hl : e.2.isLoaded
  · rfl
  · exact absurd (hinv.loadedUnique e he hl) (by simp [h])

theorem mgrInv_of_allUnloaded {s : ModelManager}
    (hnodup : (s.modelMap.map Prod.fst).Nodup) (h : AllUnloaded s) : MgrInv s := by
  refine ⟨hnodup, fun e he hl => ?_⟩
  rw [h e he] at hl
  cases hl

/-- After `unloadModel`, every interface in the map is unloaded and
`m_loadedModel` is null, with the key set unchanged. -/
theorem unloadModel_allUnloaded {s : ModelManager} (hinv : MgrInv s) :
    AllUnloaded s.unloadModel ∧ s.unloadModel.loadedModel = none ∧
      (s.unloadModel.modelMap.map Prod.fst).Nodup := by
  cases hl : s.loadedModel with
  | none =>
    have hall : AllUnloaded s := allUnloaded_of_loadedModel_none hinv hl
    simp only [ModelManager.unloadModel, hl]
    exact ⟨hall, trivial, hinv.nodupKeys⟩
  | some n =>
    cases hlk : lookupMI n s.modelMap with
    | none =>
      simp only [ModelManager.unloadModel, hl, hlk]
      refine ⟨fun e he => ?_, trivial, hinv.nodupKeys⟩
      cases hld : e.2.isLoaded
      · rfl
      · have hn := hinv.loadedUnique e he hld
        rw [hl] at hn
        injection hn with hn
        have hsome := lookupMI_isSome_of_mem (k := e.1) (v := e.2) (by simpa using he)
        rw [← hn, hlk] at hsome
        cases hsome
    | some mi =>
      simp only [ModelManager.unloadModel, hl, hlk]
      refine ⟨fun e he => ?_, trivial, by
        have := updateMI_keys n mi.unload.1 s.modelMap
        simpa [this] using hinv.nodupKeys⟩
      rcases mem_updateMI he with h | ⟨hmem, hne⟩
      · subst h
        cases hmi : mi.isLoaded <;> simp [ModelInterface.unload, hmi]
      · cases hld : e.2.isLoaded
        · rfl
        · have hn := hinv.loadedUnique e hmem hld
          rw [hl] at hn
          injection hn with hn
          exact absurd hn.symm hne

theorem unloadModel_inv {s : ModelManager} (hinv : MgrInv s) :
    MgrInv s.unloadModel := by
  obtain ⟨hall, _, hnodup⟩ := unloadModel_allUnloaded hinv
  exact mgrInv_of_allUnloaded hnodup hall

/-- `ModelInterface::load` keeps `m_isLoaded` unchanged when it fails. -/
theorem ModelInterface.load_fail_isLoaded {env : LoadEnv} {mi : ModelInterface}
    {n : Nat} (h : (ModelInterface.load env mi n).ok = false) :
    (ModelInterface.load env mi n).iface.isLoaded = mi.isLoaded := by
  unfold ModelInterface.load at h ⊢
  by_cases hl : env.loadOk
  · by_cases hc : env.ctxOk
    · simp [hl, hc] at h
    · simp [hl, hc]
  · simp [hl]

/-- `ModelInterface::load` sets `m_isLoaded` when it succeeds. -/
theorem ModelInterface.load_ok_isLoaded {env : LoadEnv} {mi : ModelInterface}
    {n : Nat} (h : (ModelInterface.load env mi n).ok = true) :
    (ModelInterface.load env mi n).iface.isLoaded = true := by
  unfold ModelInterface.load at h ⊢
  by_cases hl : env.loadOk
  · by_cases hc : env.ctxOk
    · simp [hl, hc]
    · simp [hl, hc] at h
  · simp [hl] at h

/-- `loadModelCore` preserves the invariant when started from the state the
initial unload leaves behind: null `m_loadedModel` and no loaded interface. -/
theorem loadModelCore_inv {s : ModelManager} (env : LoadEnv) (name : String)
    (hnodup : (s.modelMap.map Prod.fst).Nodup) (hall : AllUnloaded s)
    (_hl : s.loadedModel = none) :
    MgrInv (s.loadModelCore env name).2 := by
  unfold ModelManager.loadModelCore
  by_cases hdir : s.modelsDir = ""
  · simpa [hdir] using mgrInv_of_allUnloaded hnodup hall
  · simp only [hdir, if_neg, ite_false, if_false]
    by_cases hex : env.fileExists (s.modelsDir ++ "/" ++ name) = false
    · simpa [hex] using mgrInv_of_allUnloaded hnodup hall
    · simp only [hex, if_neg, not_false_iff, ite_false, if_false,
        Bool.true_eq_false]
      cases hlk : lookupMI name s.modelMap with
      | some mi =>
        have hmiu : mi.isLoaded = false := hall _ (mem_of_lookupMI_eq_some hlk)
        simp only [hmiu, Bool.false_eq_true, if_false]
        by_cases hok : (ModelInterface.load env mi s.nextRes).ok
        · simp only [hok, if_true, ite_true]
          refine ⟨by simpa [updateMI_keys] using hnodup, fun e he hld => ?_⟩
          rcases mem_updateMI he with h | ⟨hmem, hne⟩
          · subst h; rfl
          · rw [hall e hmem] at hld; cases hld
        · simp only [hok, Bool.false_eq_true, if_false, ite_false]
          refine mgrInv_of_allUnloaded (by simpa [updateMI_keys] using hnodup)
            (fun e he => ?_)
          rcases mem_updateMI he with h | ⟨hmem, hne⟩
          · subst h
            have hfail : (ModelInterface.load env mi s.nextRes).ok = false := by
              simpa using hok
            rw [ModelInterface.load_fail_isLoaded hfail, hmiu]
          · exact hall e hmem
      | none =>
        by_cases hok : (ModelInterface.load env
            { modelPath := s.modelsDir ++ "/" ++ name, model := none,
              context := none, isLoaded := false, objId := s.nextObj } s.nextRes).ok
        · simp only [hok, if_true, ite_true]
          have hfresh : name ∉ s.modelMap.map Prod.fst :=
            not_mem_keys_of_lookupMI_eq_none hlk
          refine ⟨by rw [List.map_cons]; exact List.nodup_cons.2 ⟨hfresh, hnodup⟩,
            fun e he hld => ?_⟩
          rcases List.mem_cons.1 he with h | h
          · subst h; rfl
          · rw [hall e h] at hld; cases hld
        · simp only [hok, Bool.false_eq_true, if_false, ite_false]
          exact mgrInv_of_allUnloaded hnodup hall

/-- `loadModel` preserves the invariant. -/
theorem loadModel_inv {s : ModelManager} (env : LoadEnv) (name : String)
    (hinv : MgrInv s) : MgrInv (s.loadModel env name).2 := by
  unfold ModelManager.loadModel
  cases hl : s.loadedModel with
  | none =>
    simp only [hl, Option.isSome_none, Bool.false_eq_true, if_false, ite_false]
    exact loadModelCore_inv env name hinv.nodupKeys
      (allUnloaded_of_loadedModel_none hinv hl) hl
  | some n =>
    simp only [hl, Option.isSome_some, if_true, ite_true]
    obtain ⟨hall, hnone, hnodup⟩ := unloadModel_allUnloaded hinv
    exact loadModelCore_inv env name hnodup hall hnone

/-- `step` preserves the invariant. -/
theorem step_inv {s : ModelManager} (hinv : MgrInv s) (op : MgrOp) :
    MgrInv (s.step op) := by
  cases op with
  | load name env => exact loadModel_inv env name hinv
  | unload => exact unloadModel_inv hinv

/-- The invariant is preserved by every sequence of calls. -/
theorem runOps_inv {s : ModelManager} (hinv : MgrInv s) (ops : List MgrOp) :
    MgrInv (s.runOps ops) := by
  induction ops generalizing s with
  | nil => exact hinv
  | cons op t ih => exact ih (step_inv hinv op)

/-- The invariant holds in the constructor state. -/
theorem start_inv (dir : String) : MgrInv (ModelManager.start dir) := by
  refine ⟨by simp [ModelManager.start], fun e he => ?_⟩
  simp [ModelManager.start] at he

theorem loadedCount_eq_zero {s : ModelManager} (h : AllUnloaded s) :
    s.loadedCount = 0 := by
  unfold ModelManager.loadedCount
  rw [List.length_eq_zero, List.filter_eq_nil_iff]
  intro e he
  simp [h e he]

theorem filter_loaded_length_le_one {m : List (String × ModelInterface)} {n : String}
    (hnodup : (m.map Prod.fst).Nodup)
    (hkey : ∀ e ∈ m, e.2.isLoaded = true → e.1 = n) :
    (m.filter fun e => e.2.isLoaded).length ≤ 1 := by
  induction m with
  | nil => simp
  | cons e t ih =>
    rw [List.map_cons, List.nodup_cons] at hnodup
    cases hld : e.2.isLoaded with
    | false =>
      rw [List.filter_cons_of_neg (by simp [hld])]
      exact ih hnodup.2 fun a ha hl => hkey a (List.mem_cons_of_mem _ ha) hl
    | true =>
      have hen : e.1 = n := hkey e (List.mem_cons_self _ _) hld
      have htz : (t.filter fun a => a.2.isLoaded) = [] := by
        rw [List.filter_eq_nil_iff]
        intro a ha hcon
        have han : a.1 = n := hkey a (List.mem_cons_of_mem _ ha) (by simpa using hcon)
        exact hnodup.1 (by
          rw [hen, ← han]
          exact List.mem_map_of_mem Prod.fst ha)
      rw [List.filter_cons_of_pos (by simp [hld]), htz]
      simp

theorem loadedCount_le_one {s : ModelManager} (hinv : MgrInv s) :
    s.loadedCount ≤ 1 := by
  cases hl : s.loadedModel with
  | none =>
    rw [loadedCount_eq_zero (allUnloaded_of_loadedModel_none hinv hl)]
    exact Nat.zero_le 1
  | some n =>
    exact filter_loaded_length_le_one hinv.nodupKeys fun e he hld => by
      have h := hinv.loadedUnique e he hld
      rw [hl] at h
      injection h with h
      exact h.symm

theorem unloadModel_loadedCount_zero {s : ModelManager} (hinv : MgrInv s) :
    s.unloadModel.loadedCount = 0 :=
  loadedCount_eq_zero (unloadModel_allUnloaded hinv).1

/-- C1: for every sequence of `loadModel` and `unloadModel` calls on the
`ModelManager`, at most one `ModelInterface` is in the loaded state
(`isLoaded()` true) at any instant, and after a final `unloadModel()` the
number of loaded interfaces is zero. -/
theorem c1_at_most_one_interface_loaded (dir : String) (ops : List MgrOp) :
    ((ModelManager.start dir).runOps ops).loadedCount ≤ 1 ∧
      ((ModelManager.start dir).runOps ops).unloadModel.loadedCount = 0 := by
  have hinv := runOps_inv (start_inv dir) ops
  exact ⟨loadedCount_le_one hinv, unloadModel_loadedCount_zero hinv⟩

/-! ### Concrete scenarios for loadModel -/

deriving instance DecidableEq for Except

/-- Engine environment in which every file exists and both engine stages
succeed. -/
def envAll : LoadEnv := { fileExists := fun _ => true, loadOk := true, ctxOk := true }

/-- Environment in which only `models/A` exists on disk. -/
def envOnlyA : LoadEnv :=
  { fileExists := fun p => p == "models/A", loadOk := true, ctxOk := true }

/-- Environment in which the model file loads but context initialization
fails. -/
def envCtxFail : LoadEnv := { fileExists := fun _ => true, loadOk := true, ctxOk := false }

/-- The manager state after a successful `loadModel("A")` on a fresh manager
whose models directory is `"models"`. -/
def sA : ModelManager := ((ModelManager.start "models").loadModel envAll "A").2

/-- C2 counterexample: with model `A` loaded, `loadModel("missing")` does
return `MODEL_NOT_FOUND`, but `A` is no longer loaded after the failed call
(the claim asserts it still is). -/
theorem c2_counterexample :
    ((lookupMI "A" sA.modelMap).map ModelInterface.isLoaded = some true) ∧
    (sA.loadModel envOnlyA "missing").1 = .error .MODEL_NOT_FOUND ∧
    ((lookupMI "A" (sA.loadModel envOnlyA "missing").2.modelMap).map
      ModelInterface.isLoaded = some false) := by decide

/-- C2 (amended): with a session `a` loaded, `loadModel` on a name whose
model file does not exist returns `MODEL_NOT_FOUND`, but because lines 80-83
unload the current model before any check, session `a` is unloaded (not
still loaded) after the failed call, and no model remains recorded as
loaded. -/
theorem c2_missing_model_unloads_previous (s : ModelManager) (env : LoadEnv)
    (a name : String) (mi : ModelInterface)
    (hload : s.loadedModel = some a)
    (hmi : lookupMI a s.modelMap = some mi)
    (hdir : s.modelsDir ≠ "")
    (hex : env.fileExists (s.modelsDir ++ "/" ++ name) = false) :
    (s.loadModel env name).1 = .error .MODEL_NOT_FOUND ∧
    (s.loadModel env name).2.loadedModel = none ∧
    (lookupMI a (s.loadModel env name).2.modelMap).map ModelInterface.isLoaded
      = some false := by
  unfold ModelManager.loadModel ModelManager.unloadModel ModelManager.loadModelCore
  simp only [hload, hmi, Option.isSome_some, ite_true, if_true]
  rw [if_neg hdir, if_pos hex]
  refine ⟨rfl, rfl, ?_⟩
  rw [lookupMI_updateMI_self hmi]
  cases hmil : mi.isLoaded <;> simp [ModelInterface.unload, hmil]

/-- C2 witness: the amended statement holds on the concrete scenario of the
counterexample. -/
theorem c2_missing_model_unloads_previous_witness :
    (sA.loadModel envOnlyA "missing").1 = .error .MODEL_NOT_FOUND ∧
    (sA.loadModel envOnlyA "missing").2.loadedModel = none ∧
    (lookupMI "A" (sA.loadModel envOnlyA "missing").2.modelMap).map
      ModelInterface.isLoaded = some false :=
  c2_missing_model_unloads_previous sA envOnlyA "A" "missing"
    { modelPath := "models/A", model := some 0, context := some 1,
      isLoaded := true, objId := 0 }
    (by decide) (by decide) (by decide) (by decide)

/-- C3 counterexample: `loadModel("A")` while `A` is already loaded returns
the same interface object (objId 0), but engine initialization runs again
(`initCount` 1 to 2) after an unload, and the engine resources are freed and
reallocated (`live` [0, 1] to [2, 3]) — the call is not the claimed
reinitialization-free idempotent return. -/
theorem c3_counterexample :
    sA.initCount = 1 ∧ sA.live = [0, 1] ∧
    (sA.loadModel envAll "A").1 = .ok ("A", 0) ∧
    (sA.loadModel envAll "A").2.initCount = 2 ∧
    (sA.loadModel envAll "A").2.live = [2, 3] := by decide

/-- C3 (amended): calling `loadModel` for the name that is already loaded
returns the existing `ModelInterface` object (same object id, no new
construction), but first unloads it and re-runs engine initialization
(one more `ModelInterface::load` invocation). -/
theorem c3_reload_same_interface (s : ModelManager) (env : LoadEnv)
    (name : String) (mi : ModelInterface)
    (hload : s.loadedModel = some name)
    (hmi : lookupMI name s.modelMap = some mi)
    (hmil : mi.isLoaded = true)
    (hdir : s.modelsDir ≠ "")
    (hex : env.fileExists (s.modelsDir ++ "/" ++ name) = true)
    (hok : env.loadOk = true) (hctx : env.ctxOk = true) :
    (s.loadModel env name).1 = .ok (name, mi.objId) ∧
    (s.loadModel env name).2.nextObj = s.nextObj ∧
    (s.loadModel env name).2.initCount = s.initCount + 1 := by
  unfold ModelManager.loadModel ModelManager.unloadModel ModelManager.loadModelCore
  simp only [hload, hmi, Option.isSome_some, ite_true, if_true]
  rw [if_neg hdir, hex]
  simp only [Bool.true_eq_false, if_false, ite_false]
  rw [lookupMI_updateMI_self hmi]
  have hu : mi.unload.1 = { mi with isLoaded := false } := by
    simp [ModelInterface.unload, hmil]
  rw [hu]
  simp [ModelInterface.load, hok, hctx]

/-- C3 witness: the amended statement holds on the concrete scenario of the
counterexample. -/
theorem c3_reload_same_interface_witness :
    (sA.loadModel envAll "A").1 = .ok ("A", 0) ∧
    (sA.loadModel envAll "A").2.nextObj = sA.nextObj ∧
    (sA.loadModel envAll "A").2.initCount = sA.initCount + 1 :=
  c3_reload_same_interface sA envAll "A"
    { modelPath := "models/A", model := some 0, context := some 1,
      isLoaded := true, objId := 0 }
    (by decide) (by decide) (by decide) (by decide) (by decide) (by decide) (by decide)

/-- The manager state after `loadModel("A")` followed by `unloadModel()`:
`A` sits in the map, unloaded, and no engine resource is live. -/
def sAunloaded : ModelManager := sA.unloadModel

/-- C4 counterexample: re-loading the memoized, unloaded session `A` with the
model-file stage succeeding and context initialization failing returns
`MODEL_LOAD_ERROR`, but the session object stays reachable in the map and
holds the freshly allocated, never-freed model resource 2 — a partially
initialized engine is retained, contradicting the claim. -/
theorem c4_counterexample :
    (sAunloaded.loadModel envCtxFail "A").1 = .error .MODEL_LOAD_ERROR ∧
    lookupMI "A" (sAunloaded.loadModel envCtxFail "A").2.modelMap =
      some { modelPath := "models/A", model := some 2, context := some 1,
             isLoaded := false, objId := 0 } ∧
    (sAunloaded.loadModel envCtxFail "A").2.live = [2] := by decide

/-- C4 (amended): when engine initialization fails while re-loading a
memoized session (model file loads, context initialization fails), the call
returns `MODEL_LOAD_ERROR` and no model is recorded as loaded — but the
session object remains reachable in the map and retains the live, partially
initialized engine resource allocated by the failed attempt. -/
theorem c4_load_failure_retains_partial (s : ModelManager) (env : LoadEnv)
    (name : String) (mi : ModelInterface)
    (hload : s.loadedModel = none)
    (hmi : lookupMI name s.modelMap = some mi)
    (hmil : mi.isLoaded = false)
    (hdir : s.modelsDir ≠ "")
    (hex : env.fileExists (s.modelsDir ++ "/" ++ name) = true)
    (hok : env.loadOk = true) (hctx : env.ctxOk = false) :
    (s.loadModel env name).1 = .error .MODEL_LOAD_ERROR ∧
    (s.loadModel env name).2.loadedModel = none ∧
    lookupMI name (s.loadModel env name).2.modelMap =
      some { mi with model := some s.nextRes } ∧
    s.nextRes ∈ (s.loadModel env name).2.live := by
  unfold ModelManager.loadModel ModelManager.loadModelCore
  simp only [hload, Option.isSome_none, Bool.false_eq_true, ite_false, if_false]
  rw [if_neg hdir, hex]
  simp only [Bool.true_eq_false, if_false, ite_false]
  rw [hmi]
  simp only [hmil, Bool.false_eq_true, if_false, ite_false]
  simp only [ModelInterface.load, hok, hctx, if_true, ite_true,
    Bool.false_eq_true, if_false, ite_false, hmil]
  refine ⟨trivial, trivial, ?_, ?_⟩
  · exact lookupMI_updateMI_self hmi
  · simp

/-- C4 witness: the amended statement holds on the concrete scenario of the
counterexample. -/
theorem c4_load_failure_retains_partial_witness :
    (sAunloaded.loadModel envCtxFail "A").1 = .error .MODEL_LOAD_ERROR ∧
    (sAunloaded.loadModel envCtxFail "A").2.loadedModel = none ∧
    lookupMI "A" (sAunloaded.loadModel envCtxFail "A").2.modelMap =
      some { modelPath := "models/A", model := some 2, context := some 1,
             isLoaded := false, objId := 0 } ∧
    (2 : Nat) ∈ (sAunloaded.loadModel envCtxFail "A").2.live :=
  c4_load_failure_retains_partial sAunloaded envCtxFail "A"
    { modelPath := "models/A", model := some 0, context := some 1,
      isLoaded := false, objId := 0 }
    (by decide) (by decide) (by decide) (by decide) (by decide) (by decide) (by decide)

/-- A generation environment whose tokenization step fails (the second
`llama_tokenize` call returns a negative count). -/
def genEnvTokenizeFail : GenEnv :=
  { tokenizeOk := false, nPromptTokens := 5, kvUsed := 0, nCtx := 2048,
    decodeOk := fun _ => true, isEog := fun _ => true, pieceRes := fun _ => 1 }

/-- A generation environment that reaches end-of-generation on the first
sampled token. -/
def genEnvImmediateEog : GenEnv :=
  { tokenizeOk := true, nPromptTokens := 5, kvUsed := 0, nCtx := 2048,
    decodeOk := fun _ => true, isEog := fun _ => true, pieceRes := fun _ => 1 }

/-- C5: on the tokenization-failure termination path `generateResponse`
returns without closing `writeFd` (zero `close` calls), while a normal
termination path closes it exactly once — the write end is not closed on
every termination path as the claim states. -/
theorem c5_tokenize_failure_skips_close :
    (ModelInterface.generateResponse genEnvTokenizeFail).closes = 0 ∧
    (ModelInterface.generateResponse genEnvImmediateEog).closes = 1 := by decide

/-! ### Streaming-loop lemmas -/

theorem processLine_reads (env : StreamEnv) (st : StreamSt) :
    (processLine env st).reads = st.reads := by
  simp only [processLine]
  repeat' split
  all_goals rfl

theorem processLine_history_le (env : StreamEnv) (st : StreamSt) :
    st.history.length ≤ (processLine env st).history.length := by
  simp only [processLine]
  repeat' split
  all_goals simp [String.length_append]

theorem lineStep_reads (env : StreamEnv) (st : StreamSt) :
    (lineStep env st).reads = st.reads := by
  unfold lineStep
  split
  · rfl
  · exact processLine_reads env st

theorem lineStep_history_le (env : StreamEnv) (st : StreamSt) :
    st.history.length ≤ (lineStep env st).history.length := by
  unfold lineStep
  split
  · exact le_refl _
  · exact processLine_history_le env st

theorem streamLoop_reads_ge (env : StreamEnv) (pipe : List Char) (st : StreamSt) :
    st.reads ≤ (streamLoop env pipe st).reads := by
  induction pipe generalizing st with
  | nil =>
    simp only [streamLoop]
    split
    · exact le_refl _
    · exact Nat.le_succ _
  | cons c rest ih =>
    simp only [streamLoop]
    split
    · exact le_refl _
    · split
      · split
        · rw [lineStep_reads]
          exact Nat.le_succ _
        · refine le_trans ?_ (ih _)
          dsimp only
          rw [lineStep_reads]
          exact Nat.le_succ _
      · refine le_trans ?_ (ih _)
        exact Nat.le_succ _

/-- Every `fgetc` the loop performs was preceded by observing the stop flag
as false: read indices `st.reads ≤ j <` final `reads` all have `stop j =
false`. -/
theorem streamLoop_stop_false (env : StreamEnv) (pipe : List Char) (st : StreamSt)
    (j : Nat) (h1 : st.reads ≤ j) (h2 : j < (streamLoop env pipe st).reads) :
    env.stop j = false := by
  induction pipe generalizing st with
  | nil =>
    by_cases hstop : env.stop st.reads = true
    · simp only [streamLoop, hstop, if_true, ite_true] at h2
      exact absurd h2 (by omega)
    · have hs : env.stop st.reads = false := by simpa using hstop
      simp only [streamLoop, hs, Bool.false_eq_true, if_false, ite_false] at h2
      have hj : j = st.reads := by
        have h2' : j < st.reads + 1 := h2
        omega
      rw [hj]
      exact hs
  | cons c rest ih =>
    by_cases hstop : env.stop st.reads = true
    · simp only [streamLoop, hstop, if_true, ite_true] at h2
      exact absurd h2 (by omega)
    · have hs : env.stop st.reads = false := by simpa using hstop
      simp only [streamLoop, hs, Bool.false_eq_true, if_false, ite_false] at h2
      by_cases hj : j = st.reads
      · rw [hj]
        exact hs
      · have h1' : st.reads + 1 ≤ j := by omega
        split at h2
        · split at h2
          · rw [lineStep_reads] at h2
            have h2' : j < st.reads + 1 := h2
            exact absurd h2' (by omega)
          · refine ih _ ?_ h2
            dsimp only
            rw [lineStep_reads]
            exact h1'
        · exact ih _ h1' h2

/-- The conversation history only grows along the loop. -/
theorem streamLoop_history_le (env : StreamEnv) (pipe : List Char) (st : StreamSt) :
    st.history.length ≤ (streamLoop env pipe st).history.length := by
  induction pipe generalizing st with
  | nil =>
    simp only [streamLoop]
    split
    · exact le_refl _
    · exact le_refl _
  | cons c rest ih =>
    simp only [streamLoop]
    split
    · exact le_refl _
    · split
      · split
        · exact lineStep_history_le env { st with reads := st.reads + 1 }
        · refine le_trans ?_ (ih _)
          dsimp only
          exact lineStep_history_le env { st with reads := st.reads + 1 }
      · refine le_trans ?_ (ih _)
        exact le_refl _

/-- `lineStep` does not depend on the stop flag. -/
theorem lineStep_stop_irrel (env : StreamEnv) (f : Nat → Bool) (st : StreamSt) :
    lineStep { env with stop := f } st = lineStep env st := rfl

/-- A run observing a stop flag appends at most as much history as the same
run with the flag never set. -/
theorem streamLoop_stopped_history_le (env : StreamEnv) (pipe : List Char)
    (st : StreamSt) :
    (streamLoop env pipe st).history.length ≤
      (streamLoop { env with stop := fun _ => false } pipe st).history.length := by
  have hf : ∀ j, ({ env with stop := fun _ => false } : StreamEnv).stop j = false :=
    fun _ => rfl
  induction pipe generalizing st with
  | nil =>
    by_cases hstop : env.stop st.reads = true
    · simp only [streamLoop, hstop, if_true, ite_true, hf, Bool.false_eq_true,
        if_false, ite_false]
      exact le_refl _
    · have hs : env.stop st.reads = false := by simpa using hstop
      simp only [streamLoop, hs, hf, Bool.false_eq_true, if_false, ite_false]
      exact le_refl _
  | cons c rest ih =>
    by_cases hstop : env.stop st.reads = true
    · have hL : streamLoop env (c :: rest) st = st := by
        simp only [streamLoop, hstop, if_true, ite_true]
      rw [hL]
      exact streamLoop_history_le _ _ _
    · have hs : env.stop st.reads = false := by simpa using hstop
      simp only [streamLoop, hs, hf, Bool.false_eq_true, if_false, ite_false]
      by_cases hc : c = '\n'
      · rw [if_pos hc, if_pos hc, lineStep_stop_irrel env (fun _ => false)]
        by_cases hdone : (lineStep env { st with reads := st.reads + 1 }).done = true
        · rw [if_pos hdone, if_pos hdone]
        · rw [if_neg hdone, if_neg hdone]
          exact ih _
      · rw [if_neg hc, if_neg hc]
        exact ih _

/-- C6: the streaming worker loop observes the cooperative stop flag before
every read: every performed read `j` saw `stop j = false`, so once the flag
is set at read index `k` the loop performs at most `k` reads; the pipe is
still closed exactly once, and the history produced under any stop schedule
is no longer than the uninterrupted run's. -/
theorem c6_stop_flag_cooperative (env : StreamEnv) (llmName : String)
    (pipe : List Char) (h0 : String) (k : Nat)
    (hk : env.stop k = true) :
    (Application.streamLLMResponse env llmName pipe h0).reads ≤ k ∧
    (Application.streamLLMResponse env llmName pipe h0).closes = 1 ∧
    (Application.streamLLMResponse env llmName pipe h0).history.length ≤
      (Application.streamLLMResponse { env with stop := fun _ => false }
        llmName pipe h0).history.length := by
  refine ⟨?_, rfl, ?_⟩
  · by_contra hlt
    push_neg at hlt
    have hj := streamLoop_stop_false env pipe
      { currentLine := "", accumulated := "", chunkCounter := 0,
        history := h0 ++ llmName ++ ": ", reads := 0, done := false }
      k (Nat.zero_le k) hlt
    rw [hk] at hj
    cases hj
  · have h := streamLoop_stopped_history_le env pipe
      { currentLine := "", accumulated := "", chunkCounter := 0,
        history := h0 ++ llmName ++ ": ", reads := 0, done := false }
    show ((streamLoop env pipe _).history ++ "\n\n").length ≤
      ((streamLoop { env with stop := fun _ => false } pipe _).history ++ "\n\n").length
    simpa [String.length_append] using Nat.add_le_add_right h 2

/-- Environment whose stop flag is already set before the first read. -/
def streamEnvStopNow : StreamEnv :=
  { parseLine := fun _ => none, stop := fun _ => true }

/-- C6 witness: with the stop flag set from read index 0, the worker performs
no read, still closes the pipe once, and produces no more history than the
uninterrupted run. -/
theorem c6_stop_flag_cooperative_witness :
    (Application.streamLLMResponse streamEnvStopNow "m" ['h', 'i'] "").reads ≤ 0 ∧
    (Application.streamLLMResponse streamEnvStopNow "m" ['h', 'i'] "").closes = 1 ∧
    (Application.streamLLMResponse streamEnvStopNow "m" ['h', 'i'] "").history.length ≤
      (Application.streamLLMResponse { streamEnvStopNow with stop := fun _ => false }
        "m" ['h', 'i'] "").history.length :=
  c6_stop_flag_cooperative streamEnvStopNow "m" ['h', 'i'] "" 0 rfl

/-- C7: for a non-empty prompt on a running session, `sendPrompt` appends the
`User: <text>\n` turn to the conversation history under the response mutex
synchronously, and that append strictly precedes any worker spawn in the
call's action sequence. -/
theorem c7_user_turn_before_worker (env : PromptEnv) (prompt : String)
    (ka : Bool) (s : AppState)
    (hrun : s.isLLMRunning = true) (hne : prompt ≠ "") :
    (Application.sendPrompt env prompt ka s).1.conversationHistory
      = s.conversationHistory ++ ("User: " ++ prompt ++ "\n") ∧
    (Application.sendPrompt env prompt ka s).2.head?
      = some (.lockAppend ("User: " ++ prompt ++ "\n")) ∧
    (∀ i l p k, (Application.sendPrompt env prompt ka s).2.get? i
        = some (.spawnWorker l p k) →
      ∃ j, j < i ∧ (Application.sendPrompt env prompt ka s).2.get? j
        = some (.lockAppend ("User: " ++ prompt ++ "\n"))) := by
  by_cases hasync : env.asyncLaunchOk = true
  · simp only [Application.sendPrompt, hrun, Bool.true_eq_false, if_false,
      ite_false, if_neg hne, hasync, if_true, ite_true, List.cons_append,
      List.nil_append]
    refine ⟨by trivial, by trivial, ?_⟩
    intro i l p k hi
    match i with
    | 0 => simp at hi
    | 1 => exact ⟨0, by omega, rfl⟩
    | n + 2 => simp at hi
  · have hasync' : env.asyncLaunchOk = false := by simpa using hasync
    simp only [Application.sendPrompt, hrun, Bool.true_eq_false, if_false,
      ite_false, if_neg hne, hasync', List.cons_append, List.nil_append]
    refine ⟨by trivial, by trivial, ?_⟩
    intro i l p k hi
    match i with
    | 0 => simp at hi
    | n + 1 => simp at hi

/-- Running state and collaborator outcomes for the C7 witness. -/
def promptEnvPlain : PromptEnv := { fileContext := "", asyncLaunchOk := true }

/-- An application state with an LLM running and an empty history. -/
def appStateRunning : AppState :=
  { isLLMRunning := true, isWaitingForResponse := false, stopRequested := false,
    conversationHistory := "", currentLLM := "llama" }

/-- C7 witness: the statement instantiated at a concrete running state and
prompt. -/
theorem c7_user_turn_before_worker_witness :
    (Application.sendPrompt promptEnvPlain "Hi" true appStateRunning).1.conversationHistory
      = "" ++ ("User: " ++ "Hi" ++ "\n") ∧
    (Application.sendPrompt promptEnvPlain "Hi" true appStateRunning).2.head?
      = some (.lockAppend ("User: " ++ "Hi" ++ "\n")) :=
  ⟨(c7_user_turn_before_worker promptEnvPlain "Hi" true appStateRunning rfl
      (by decide)).1,
   (c7_user_turn_before_worker promptEnvPlain "Hi" true appStateRunning rfl
      (by decide)).2.1⟩

/-- A models directory with two regular `.gguf` files: `b.gguf` (1 GiB) and
`a.gguf` (2 GiB). -/
def envTwoModels : FsEnv :=
  { dirExists := true,
    entries := [
      { filename := "b.gguf", isRegularFile := true, size := 1024 * 1024 * 1024 },
      { filename := "a.gguf", isRegularFile := true, size := 2 * 1024 * 1024 * 1024 }],
    scanOk := true }

/-- C8: the comparator at ModelManager.cpp line 63 is `a.second < b.second`
(the size label), so `b.gguf` with the smaller size label precedes
`a.gguf` in the returned list even though `"a.gguf" < "b.gguf"` — the list
is not sorted by name. -/
theorem c8_sorted_by_size_label_not_name :
    ((ModelManager.start "models").fetchModels envTwoModels).1
      = .ok [("b.gguf", "1.00"), ("a.gguf", "2.00")] ∧
    strLt "a.gguf".toList "b.gguf".toList = true := by decide

/-- `insertBySecond` permutes the inserted element to the front. -/
theorem insertBySecond_perm (a : String × String) (l : List (String × String)) :
    List.Perm (insertBySecond a l) (a :: l) := by
  induction l with
  | nil => exact List.Perm.refl _
  | cons b t ih =>
    unfold insertBySecond
    split
    · exact List.Perm.refl _
    · exact (ih.cons b).trans (List.Perm.swap a b t)

/-- The sort is a permutation of its input. -/
theorem sortBySizeLabel_perm (l : List (String × String)) :
    List.Perm (sortBySizeLabel l) l := by
  induction l with
  | nil => exact List.Perm.refl _
  | cons a t ih =>
    unfold sortBySizeLabel at ih ⊢
    simp only [List.foldr_cons]
    exact (insertBySecond_perm a _).trans (ih.cons a)

/-- C9: `fetchModels` fails with `MODEL_DIRECTORY_NOT_SET` iff no directory
is configured; with the directory configured it fails with
`MODEL_DIRECTORY_DOES_NOT_EXIST` when the path is absent and with
`MODEL_PATH_ERROR` when enumeration throws; otherwise it returns the model
list; and it never modifies the manager state. -/
theorem c9_fetchModels_errors (env : FsEnv) (s : ModelManager) :
    (((s.fetchModels env).1 = .error .MODEL_DIRECTORY_NOT_SET) ↔ s.modelsDir = "") ∧
    (s.modelsDir ≠ "" → env.dirExists = false →
      (s.fetchModels env).1 = .error .MODEL_DIRECTORY_DOES_NOT_EXIST) ∧
    (s.modelsDir ≠ "" → env.dirExists = true → env.scanOk = false →
      (s.fetchModels env).1 = .error .MODEL_PATH_ERROR) ∧
    (s.modelsDir ≠ "" → env.dirExists = true → env.scanOk = true →
      ∃ l, (s.fetchModels env).1 = .ok l) ∧
    (s.fetchModels env).2 = s := by
  by_cases hdir : s.modelsDir = ""
  · have heq : s.fetchModels env = (.error .MODEL_DIRECTORY_NOT_SET, s) := by
      simp [ModelManager.fetchModels, hdir]
    rw [heq]
    refine ⟨iff_of_true rfl hdir, ?_, ?_, ?_, rfl⟩
    · intro hd _
      exact absurd hdir hd
    · intro hd _ _
      exact absurd hdir hd
    · intro hd _ _
      exact absurd hdir hd
  · by_cases hex : env.dirExists = true
    · by_cases hscan : env.scanOk = true
      · have heq : s.fetchModels env = (.ok (sortBySizeLabel
            ((env.entries.filter fun e =>
              e.isRegularFile && (fileExtension e.filename == ".gguf")).map
              fun e => (e.filename, formatSizeGB e.size))), s) := by
          simp [ModelManager.fetchModels, hdir, hex, hscan]
        rw [heq]
        refine ⟨iff_of_false (fun h => Except.noConfusion h) hdir, ?_, ?_, ?_, rfl⟩
        · intro _ h
          rw [hex] at h
          cases h
        · intro _ _ h
          rw [hscan] at h
          cases h
        · intro _ _ _
          exact ⟨_, rfl⟩
      · have hscan2 : env.scanOk = false := by simpa using hscan
        have heq : s.fetchModels env = (.error .MODEL_PATH_ERROR, s) := by
          simp [ModelManager.fetchModels, hdir, hex, hscan2]
        rw [heq]
        refine ⟨iff_of_false ?_ hdir, ?_, ?_, ?_, rfl⟩
        · intro h
          injection h with h
          cases h
        · intro _ h
          rw [hex] at h
          cases h
        · intro _ _ _
          rfl
        · intro _ _ h
          rw [hscan2] at h
          cases h
    · have hex2 : env.dirExists = false := by simpa using hex
      have heq : s.fetchModels env = (.error .MODEL_DIRECTORY_DOES_NOT_EXIST, s) := by
        simp [ModelManager.fetchModels, hdir, hex2]
      rw [heq]
      refine ⟨iff_of_false ?_ hdir, ?_, ?_, ?_, rfl⟩
      · intro h
        injection h with h
        cases h
      · intro _ _
        rfl
      · intro _ h _
        rw [hex2] at h
        cases h
      · intro _ h _
        rw [hex2] at h
        cases h

/-- C9 witness: with no directory configured, `fetchModels` fails with
`MODEL_DIRECTORY_NOT_SET`. -/
theorem c9_fetchModels_errors_witness :
    ((ModelManager.start "").fetchModels envTwoModels).1
      = .error .MODEL_DIRECTORY_NOT_SET :=
  (c9_fetchModels_errors envTwoModels (ModelManager.start "")).1.mpr rfl

/-- C10: when `fetchModels` succeeds, the returned descriptors are exactly
the regular files of the scanned directory with extension `.gguf`, the name
being the file name and the size label the file size in gibibytes formatted
to two decimal places. -/
theorem c10_gguf_descriptors (env : FsEnv) (s : ModelManager)
    (l : List (String × String)) (name label : String)
    (h : (s.fetchModels env).1 = .ok l) :
    ((name, label) ∈ l ↔ ∃ e ∈ env.entries, e.isRegularFile = true ∧
      fileExtension e.filename = ".gguf" ∧ name = e.filename ∧
      label = formatSizeGB e.size) := by
  unfold ModelManager.fetchModels at h
  by_cases hdir : s.modelsDir = ""
  · rw [if_pos hdir] at h
    cases h
  · rw [if_neg hdir] at h
    by_cases hex : env.dirExists = false
    · rw [if_pos hex] at h
      cases h
    · rw [if_neg hex] at h
      by_cases hscan : env.scanOk = false
      · rw [if_pos hscan] at h
        cases h
      · rw [if_neg hscan] at h
        have h2 : Except.ok (ε := ModelErrorType) (sortBySizeLabel
            ((env.entries.filter fun e =>
              e.isRegularFile && (fileExtension e.filename == ".gguf")).map
              fun e => (e.filename, formatSizeGB e.size))) = Except.ok l := h
        injection h2 with h2
        rw [← h2, List.Perm.mem_iff (sortBySizeLabel_perm _)]
        constructor
        · intro hm
          rcases List.mem_map.1 hm with ⟨e, hef, hee⟩
          rcases List.mem_filter.1 hef with ⟨hent, hpe⟩
          rw [Bool.and_eq_true] at hpe
          rcases hpe with ⟨hreg, hext⟩
          cases hee
          exact ⟨e, hent, hreg, eq_of_beq hext, rfl, rfl⟩
        · rintro ⟨e, hent, hreg, hext, rfl, rfl⟩
          refine List.mem_map.2 ⟨e, List.mem_filter.2 ⟨hent, ?_⟩, rfl⟩
          rw [Bool.and_eq_true]
          exact ⟨hreg, beq_iff_eq.2 hext⟩

/-- A directory with one matching file, one wrong extension and one
non-regular entry. -/
def envMixedEntries : FsEnv :=
  { dirExists := true,
    entries := [
      { filename := "a.gguf", isRegularFile := true, size := 0 },
      { filename := "b.txt", isRegularFile := true, size := 5 },
      { filename := "c.gguf", isRegularFile := false, size := 5 }],
    scanOk := true }

/-- C10 witness: on the mixed directory, `fetchModels` succeeds with exactly
the descriptor of `a.gguf`, and that descriptor's membership follows from
the characterization. -/
theorem c10_gguf_descriptors_witness :
    (("a.gguf", "0.00") ∈ ([("a.gguf", "0.00")] : List (String × String))) :=
  (c10_gguf_descriptors envMixedEntries (ModelManager.start "models")
    [("a.gguf", "0.00")] "a.gguf" "0.00" (by decide)).mpr
    ⟨{ filename := "a.gguf", isRegularFile := true, size := 0 },
      by decide, rfl, by decide, rfl, by decide⟩
